import Mathlib

/-!
Shallow embedding of the RayTracer repository (Rust) in Lean 4.

`f64` values are modelled as real numbers (`ℝ`): the claims under study are
about the exact arithmetic relationships the code implements, and every
degenerate case the code handles explicitly (zero-length normalize, negative
discriminant, parallel ray/plane) is represented exactly.  Machine-integer
casts that the code performs (`as i32`, `as u32`) are modelled explicitly
with saturation, as Rust defines them for floating-point casts.  Rust panics
are modelled with `Option`/`none` (or a dedicated error value).  The
`f64::INFINITY` bounds that `ConstantMedium::hit` passes to its boundary are
modelled by using `EReal` for search-interval endpoints, while every stored
`t` stays a real number, as in the code.  Calls to `fastrand::f64()` are
modelled by explicit parameters holding the drawn value.
-/

namespace RayTracer

/-- Source `Vector3` from `src/vector3.rs`: an (x, y, z) triple of `f64`. -/
structure Vector3 where
  x : ℝ
  y : ℝ
  z : ℝ

namespace Vector3

/-- Source `Vector3::length`: `(x*x + y*y + z*z).sqrt()`. -/
noncomputable def length (v : Vector3) : ℝ :=
  Real.sqrt (v.x * v.x + v.y * v.y + v.z * v.z)

/-- Source `Vector3::normalize`: returns the zero vector when the length is zero,
otherwise divides every component by the length. -/
noncomputable def normalize (v : Vector3) : Vector3 :=
  if v.length = 0 then ⟨0, 0, 0⟩
  else ⟨v.x / v.length, v.y / v.length, v.z / v.length⟩

/-- Source `Vector3::dot`. -/
def dot (v rhs : Vector3) : ℝ :=
  v.x * rhs.x + v.y * rhs.y + v.z * rhs.z

/-- Source `Vector3::cross`. -/
def cross (v rhs : Vector3) : Vector3 :=
  ⟨v.y * rhs.z - v.z * rhs.y, v.z * rhs.x - v.x * rhs.z, v.x * rhs.y - v.y * rhs.x⟩

/-- Component-wise addition (`impl ops::Add for Vector3`). -/
instance : Add Vector3 := ⟨fun a b => ⟨a.x + b.x, a.y + b.y, a.z + b.z⟩⟩

/-- Component-wise subtraction (`impl ops::Sub for Vector3`). -/
instance : Sub Vector3 := ⟨fun a b => ⟨a.x - b.x, a.y - b.y, a.z - b.z⟩⟩

/-- Negation (`impl ops::Neg for Vector3`). -/
instance : Neg Vector3 := ⟨fun a => ⟨-a.x, -a.y, -a.z⟩⟩

/-- Component-wise multiplication (`impl ops::Mul for Vector3`). -/
instance : Mul Vector3 := ⟨fun a b => ⟨a.x * b.x, a.y * b.y, a.z * b.z⟩⟩

/-- Scalar multiplication (`impl ops::Mul<f64> for Vector3` and its mirror). -/
instance : SMul ℝ Vector3 := ⟨fun r a => ⟨r * a.x, r * a.y, r * a.z⟩⟩

/-- Scalar division (`impl ops::Div<f64> for Vector3`). -/
noncomputable def divScalar (a : Vector3) (r : ℝ) : Vector3 := ⟨a.x / r, a.y / r, a.z / r⟩

end Vector3

/-- Source `Ray` from `src/ray.rs`: origin, direction (normalized by the constructor)
and the pre-normalization length of the direction. -/
structure Ray where
  origin : Vector3
  direction : Vector3
  length : ℝ

/-- Source `Ray::new`: stores the normalized direction and the original direction length. -/
noncomputable def Ray.new (origin direction : Vector3) : Ray :=
  ⟨origin, direction.normalize, direction.length⟩

/-- Source `Ray::point_at`: `origin + direction * t`. -/
noncomputable def Ray.pointAt (r : Ray) (t : ℝ) : Vector3 :=
  r.origin + t • r.direction

/-- Source `reflect` from `src/utils.rs`: `v - 2*(v·n)*n`. -/
noncomputable def reflect (v normal : Vector3) : Vector3 :=
  v - (2 * v.dot normal) • normal

/-- Source `refract` from `src/utils.rs`: Snell decomposition into perpendicular and
parallel components, with the cosine clamped to at most 1. -/
noncomputable def refract (v normal : Vector3) (refractive_ratio : ℝ) : Vector3 :=
  let cos_theta := min ((-v).dot normal) 1
  let r_out_perp := refractive_ratio • (v + cos_theta • normal)
  let r_out_parallel := (-Real.sqrt |1 - r_out_perp.length ^ 2|) • normal
  r_out_perp + r_out_parallel

/-- Source `linear_to_gamma` from `src/utils.rs`. -/
noncomputable def linear_to_gamma (linear_component : ℝ) : ℝ :=
  if linear_component > 0 then linear_component ^ ((1 : ℝ) / 2.2) else 0

/-- Source `HitRecord` from `src/hit.rs`.  The `&'a dyn Material` reference is
modelled as an index into the scene's material environment. -/
structure HitRecord where
  t : ℝ
  poz : Vector3
  normal : Vector3
  front_face : Bool
  material : ℕ
  u : ℝ
  v : ℝ

/-- Source `HitRecord::new`: `front_face` starts `true` and the normal starts at the
placeholder `(1,0,0)`; `set_face_normal` is expected to overwrite them. -/
def HitRecord.new (t : ℝ) (poz : Vector3) (material : ℕ) (u v : ℝ) : HitRecord :=
  ⟨t, poz, ⟨1, 0, 0⟩, true, material, u, v⟩

/-- Source `HitRecord::set_face_normal`: `front_face = direction·outward ≤ 0`, and the
stored normal is the outward normal flipped to the front-face side. -/
noncomputable def HitRecord.set_face_normal
    (rec : HitRecord) (ray : Ray) (outward_normal : Vector3) : HitRecord :=
  let ff : Bool := ray.direction.dot outward_normal ≤ 0
  { rec with front_face := ff, normal := if ff then outward_normal else -outward_normal }

/-- Source `Dielectric::reflectance` (Schlick's approximation). -/
noncomputable def Dielectric.reflectance (cosine refraction_index : ℝ) : ℝ :=
  let r0 := ((1 - refraction_index) / (1 + refraction_index)) ^ 2
  r0 + (1 - r0) * (1 - cosine) ^ 5

/-- The effective refraction ratio used by `Dielectric::scatter`:
`1/refraction_index` when entering the medium, `refraction_index` when exiting. -/
noncomputable def Dielectric.refractionRatio (refraction_index : ℝ) (rec : HitRecord) : ℝ :=
  if rec.front_face then 1 / refraction_index else refraction_index

/-- Source `cos_theta` as computed by `Dielectric::scatter`: `(-direction)·normal`, capped at 1. -/
noncomputable def Dielectric.cosTheta (ray : Ray) (rec : HitRecord) : ℝ :=
  min ((-ray.direction).dot rec.normal) 1

/-- Source `sin_theta` as computed by `Dielectric::scatter`. -/
noncomputable def Dielectric.sinTheta (ray : Ray) (rec : HitRecord) : ℝ :=
  Real.sqrt (1 - Dielectric.cosTheta ray rec * Dielectric.cosTheta ray rec)

/-- Source `Dielectric::scatter` from `src/material.rs`.  The uniform random draw
`fastrand::f64()` is passed in explicitly as `rand`. -/
noncomputable def Dielectric.scatter
    (refraction_index rand : ℝ) (ray : Ray) (hit_record : HitRecord) :
    Option (Ray × Vector3) :=
  let attenuation : Vector3 := ⟨1, 1, 1⟩
  let refraction_ratio := Dielectric.refractionRatio refraction_index hit_record
  let cannot_refract := refraction_ratio * Dielectric.sinTheta ray hit_record > 1
  let direction :=
    if cannot_refract ∨ Dielectric.reflectance (Dielectric.cosTheta ray hit_record)
        refraction_index > rand
    then reflect ray.direction hit_record.normal
    else refract ray.direction hit_record.normal refraction_ratio
  some (Ray.new hit_record.poz direction, attenuation)

/-- Source `Sphere::get_sphere_uv`: spherical parameterization
`φ = atan2(-z, x) + π`, `θ = acos(-y)`, `u = φ/2π`, `v = θ/π`.
`atan2(y, x)` is the argument of the complex number `x + y·i`. -/
noncomputable def Sphere.getSphereUV (p : Vector3) : ℝ × ℝ :=
  let phi := Complex.arg ⟨p.x, -p.z⟩ + Real.pi
  let theta := Real.arccos (-p.y)
  (phi / (2 * Real.pi), theta / Real.pi)

/-- Source `Sphere::hit` from `src/shapes/sphere.rs`: quadratic intersection, smaller
root first with fallback to the larger root, both checked against the search
interval. -/
noncomputable def Sphere.hit (center : Vector3) (radius : ℝ) (material : ℕ)
    (ray : Ray) (interval : EReal × EReal) : Option HitRecord :=
  let oc := ray.origin - center
  let a := ray.direction.dot ray.direction
  let b := 2 * ray.direction.dot oc
  let c := oc.dot oc - radius * radius
  let discriminant := b * b - 4 * a * c
  if discriminant < 0 then none
  else
    let sqrt_d := Real.sqrt discriminant
    let first_root := (-b - sqrt_d) / (2 * a)
    let second_root := (-b + sqrt_d) / (2 * a)
    let mk : ℝ → Option HitRecord := fun solution =>
      if (solution : EReal) > interval.2 then none
      else
        let outward_normal := (ray.pointAt solution - center).normalize
        let uv := Sphere.getSphereUV outward_normal
        some ((HitRecord.new solution (ray.pointAt solution) material uv.1 uv.2).set_face_normal
          ray outward_normal)
    if (first_root : EReal) > interval.1 then mk first_root
    else if (second_root : EReal) > interval.1 then mk second_root
    else none

/-- Source `Quad` from `src/shapes/quad.rs`, with the values precomputed by `Quad::new`. -/
structure Quad where
  starting_corner : Vector3
  u : Vector3
  v : Vector3
  material : ℕ
  normal : Vector3
  d : ℝ
  w : Vector3

/-- Source `Quad::new`: precomputes the plane normal, the plane offset `d`, and the
basis helper `w = n / (n·n)`. -/
noncomputable def Quad.new (starting_corner u v : Vector3) (material : ℕ) : Quad :=
  let n := u.cross v
  let normal := n.normalize
  ⟨starting_corner, u, v, material, normal, normal.dot starting_corner, n.divScalar (n.dot n)⟩

/-- Source `Quad::hit` from `src/shapes/quad.rs`. -/
noncomputable def Quad.hit (q : Quad) (ray : Ray) (interval : EReal × EReal) :
    Option HitRecord :=
  let denom := q.normal.dot ray.direction
  if |denom| < 1e-8 then none
  else
    let t := (q.d - q.normal.dot ray.origin) / denom
    if ¬((t : EReal) ≥ interval.1 ∧ (t : EReal) ≤ interval.2) then none
    else
      let intersection := ray.pointAt t
      let planar := intersection - q.starting_corner
      let alpha := q.w.dot (planar.cross q.v)
      let beta := q.w.dot (q.u.cross planar)
      if alpha > 1 ∨ beta > 1 ∨ alpha < 0 ∨ beta < 0 then none
      else some ((HitRecord.new t intersection q.material alpha beta).set_face_normal
        ray q.normal)

/-- The `min_by` call shared by `BoxQuad::hit` and `Camera::ray_color`:
`.min_by(|r1, r2| r1.t.partial_cmp(&r2.t).unwrap_or(Ordering::Equal))`.
Over `ℝ` (no NaN) `partial_cmp` is total, and Rust's `min_by` keeps the last
of equally-minimal elements, which the fold below reproduces. -/
noncomputable def minByT (l : List HitRecord) : Option HitRecord :=
  l.foldl (fun acc r =>
    match acc with
    | none => some r
    | some m => if r.t ≤ m.t then some r else some m) none

/-- The six quads `BoxQuad::new` builds from two opposite corners. -/
noncomputable def BoxQuad.sides (a b : Vector3) (material : ℕ) : List Quad :=
  let pmin : Vector3 := ⟨min a.x b.x, min a.y b.y, min a.z b.z⟩
  let pmax : Vector3 := ⟨max a.x b.x, max a.y b.y, max a.z b.z⟩
  let dx : Vector3 := ⟨pmax.x - pmin.x, 0, 0⟩
  let dy : Vector3 := ⟨0, pmax.y - pmin.y, 0⟩
  let dz : Vector3 := ⟨0, 0, pmax.z - pmin.z⟩
  [Quad.new ⟨pmin.x, pmin.y, pmax.z⟩ dx dy material,
   Quad.new ⟨pmax.x, pmin.y, pmax.z⟩ (-dz) dy material,
   Quad.new ⟨pmax.x, pmin.y, pmin.z⟩ (-dx) dy material,
   Quad.new ⟨pmin.x, pmin.y, pmin.z⟩ dz dy material,
   Quad.new ⟨pmin.x, pmax.y, pmax.z⟩ dx (-dz) material,
   Quad.new ⟨pmin.x, pmin.y, pmin.z⟩ dx dz material]

/-- The hittable variants of the repository (`Sphere`, `Quad`, `BoxQuad`,
`ConstantMedium`, `Translate`, `RotateY`).  A `ConstantMedium` node carries
the uniform random value `urand` that `fastrand::f64()` produces during its
`hit` call, so that theorems quantify over every possible draw; it also
carries the `density` passed to `ConstantMedium::new` (which stores
`neg_inv_density = -1.0/density`).  A `RotateY` node carries the sine and
cosine that `RotateY::new` precomputes from the angle. -/
inductive Hittable where
  | sphere (center : Vector3) (radius : ℝ) (material : ℕ)
  | quadObj (q : Quad)
  | boxQuad (a b : Vector3) (material : ℕ)
  | medium (boundary : Hittable) (density : ℝ) (material : ℕ) (urand : ℝ)
  | translate (object : Hittable) (offset : Vector3)
  | rotateY (object : Hittable) (sin_theta cos_theta : ℝ)

/-- Source `RotateY::new` precomputes the sine and cosine of the angle (degrees). -/
noncomputable def RotateY.new (object : Hittable) (angle : ℝ) : Hittable :=
  .rotateY object (Real.sin (angle * Real.pi / 180)) (Real.cos (angle * Real.pi / 180))

/-- Source `Hittable::hit` for every variant, one clause per `impl Hittable for _`:
sphere and quad as above; `BoxQuad::hit` takes the minimum-`t` hit over the six
sides; `ConstantMedium::hit` (src/shapes/volume.rs) probes the boundary twice,
clamps the entry/exit parameters to the caller interval, and samples a
free-path distance `-ln(urand)/density`; `Translate::hit` delegates on a ray
with shifted origin and shifts the hit position back; `RotateY::hit` rotates
the ray into object space and the hit position/normal back out.
In the medium clause the two clamped bounds are computed in `EReal`; in the
branch that produces a hit both are proved finite, so `toReal` is exact. -/
noncomputable def Hittable.hit : Hittable → Ray → EReal × EReal → Option HitRecord
  | .sphere c r m, ray, interval => Sphere.hit c r m ray interval
  | .quadObj q, ray, interval => Quad.hit q ray interval
  | .boxQuad a b m, ray, interval =>
      minByT ((BoxQuad.sides a b m).filterMap fun s => Quad.hit s ray interval)
  | .medium boundary density m urand, ray, interval =>
      match boundary.hit ray (⊥, ⊤) with
      | none => none
      | some hit1 =>
        match boundary.hit ray (((hit1.t + 0.0001 : ℝ) : EReal), ⊤) with
        | none => none
        | some hit2 =>
          let t1 : EReal := if (hit1.t : EReal) < interval.1 then interval.1
            else (hit1.t : EReal)
          let t2 : EReal := if (hit2.t : EReal) > interval.2 then interval.2
            else (hit2.t : EReal)
          if t1 ≥ t2 then none
          else
            let t1 := if t1 < 0 then 0 else t1
            let distance_inside_boundary := (t2.toReal - t1.toReal) * ray.length
            let hit_distance := (-(1 / density)) * Real.log urand
            if hit_distance > distance_inside_boundary then none
            else
              let t := t1.toReal + hit_distance / ray.length
              some (HitRecord.new t (ray.pointAt t) m 0 0)
  | .translate object offset, ray, interval =>
      match object.hit (Ray.new (ray.origin - offset) ray.direction) interval with
      | none => none
      | some rec => some { rec with poz := rec.poz + offset }
  | .rotateY object s c, ray, interval =>
      let origin : Vector3 := ⟨c * ray.origin.x - s * ray.origin.z, ray.origin.y,
        s * ray.origin.x + c * ray.origin.z⟩
      let direction : Vector3 := ⟨c * ray.direction.x - s * ray.direction.z, ray.direction.y,
        s * ray.direction.x + c * ray.direction.z⟩
      match object.hit (Ray.new origin direction) interval with
      | none => none
      | some rec =>
          some { rec with
            poz := ⟨c * rec.poz.x + s * rec.poz.z, rec.poz.y,
              -s * rec.poz.x + c * rec.poz.z⟩,
            normal := ⟨c * rec.normal.x + s * rec.normal.z, rec.normal.y,
              -s * rec.normal.x + c * rec.normal.z⟩ }

/-- Well-formedness of a hittable tree, matching how the program builds scenes:
every `ConstantMedium` has positive density (all scenes use 0.01/0.0001/0.2)
and its uniform draw lies in `(0,1)` (`fastrand::f64()` samples `[0,1)`, and a
draw of exactly 0 makes `ln` return `-inf`, which the free-path test rejects). -/
inductive WF : Hittable → Prop
  | sphere {c : Vector3} {r : ℝ} {m : ℕ} : WF (.sphere c r m)
  | quadObj {q : Quad} : WF (.quadObj q)
  | boxQuad {a b : Vector3} {m : ℕ} : WF (.boxQuad a b m)
  | medium {boundary : Hittable} {density : ℝ} {m : ℕ} {urand : ℝ} :
      0 < density → 0 < urand → urand < 1 → WF boundary →
      WF (.medium boundary density m urand)
  | translate {object : Hittable} {offset : Vector3} : WF object → WF (.translate object offset)
  | rotateY {object : Hittable} {s c : ℝ} : WF object → WF (.rotateY object s c)

/-- Hittable trees with no `ConstantMedium` node (the variants whose hit
records go through `set_face_normal`). -/
inductive MediumFree : Hittable → Prop
  | sphere {c : Vector3} {r : ℝ} {m : ℕ} : MediumFree (.sphere c r m)
  | quadObj {q : Quad} : MediumFree (.quadObj q)
  | boxQuad {a b : Vector3} {m : ℕ} : MediumFree (.boxQuad a b m)
  | translate {object : Hittable} {offset : Vector3} :
      MediumFree object → MediumFree (.translate object offset)
  | rotateY {object : Hittable} {s c : ℝ} :
      MediumFree object → MediumFree (.rotateY object s c)

/-- The behavior of a `dyn Material` trait object: `scatter` (with any
randomness resolved inside the closure, as the program's global RNG is) and
`emitted`. -/
structure MaterialImpl where
  scatter : Ray → HitRecord → Option (Ray × Vector3)
  emitted : ℝ → ℝ → Vector3 → Vector3

/-- Source `Camera::ray_color` from `src/camera.rs`.  The `&[Box<dyn Hittable>]`
slice is modelled as the list of the objects' hit functions, and the
`&dyn Material` reference in a record resolves through the material
environment `M`.  Depth 0 returns black; otherwise the nearest hit over
(0.001, +∞) is taken (`filter_map` + `min_by` on `t`), and the result is
`attenuation ⊙ recursive + emitted` on scatter, the emitted color alone on
no-scatter, and the background of the ray direction on a miss. -/
noncomputable def rayColor (M : ℕ → MaterialImpl) (background : Vector3 → Vector3)
    (hittable : List (Ray → EReal × EReal → Option HitRecord)) :
    Ray → ℕ → Vector3
  | _, 0 => ⟨0, 0, 0⟩
  | ray, depth + 1 =>
    let min_record := minByT (hittable.filterMap fun h => h ray (((0.001 : ℝ) : EReal), ⊤))
    match min_record with
    | some record =>
      let emission_color := (M record.material).emitted record.u record.v record.poz
      match (M record.material).scatter ray record with
      | some (scattered, attenuation) =>
        attenuation * rayColor M background hittable scattered depth + emission_color
      | none => emission_color
    | none => background ray.direction

/-- Rust's saturating cast `f64 as i32`, applied to an already-floored value
(so truncation toward zero is the identity and only the clamp remains). -/
def satCast32 (n : ℤ) : ℤ := max (-(2 ^ 31)) (min (2 ^ 31 - 1) n)

/-- Source `CheckerTexture::value` from `src/texture.rs`: each coordinate is scaled,
floored and cast `as i32`; the sum's parity selects the sub-texture.  The
`i32` sum wraps on overflow (release build), which preserves parity, so the
sum is taken in ℤ. -/
noncomputable def CheckerTexture.value (scale : ℝ)
    (evenT oddT : ℝ → ℝ → Vector3 → Vector3) (u v : ℝ) (p : Vector3) : Vector3 :=
  let x := satCast32 ⌊scale * p.x⌋
  let y := satCast32 ⌊scale * p.y⌋
  let z := satCast32 ⌊scale * p.z⌋
  if (x + y + z) % 2 = 0 then evenT u v p else oddT u v p

/-- Decoded bitmap data held by an `ImageTexture` (`DynamicImage`):
dimensions and the per-pixel sRGB byte triples at in-bounds coordinates. -/
structure ImageData where
  width : ℕ
  height : ℕ
  pixel : ℕ → ℕ → ℕ × ℕ × ℕ

/-- Source `DynamicImage::new_rgb8(0, 0)`: the empty placeholder image. -/
def ImageData.empty : ImageData := ⟨0, 0, fun _ _ => (0, 0, 0)⟩

/-- Rust's saturating cast `f64 as u32`: truncation toward zero, with negative
values clamping to 0 and large values to `u32::MAX`. -/
noncomputable def rustCastU32 (x : ℝ) : ℕ :=
  if x ≤ 0 then 0 else min (⌊x⌋.toNat) (2 ^ 32 - 1)

/-- Source `ImageTexture::new` from `src/texture.rs`, with the file system
abstracted: `resource` combines `find_file` and open/decode — `none` when
`find_file` returns `None` (the code logs a warning and stores the empty
image), `some none` when the file was found but `ImageReader::open` or
`decode` fails (the code calls `.expect(..)`, i.e. panics, modelled by the
`none` result), and `some (some img)` on success. -/
def ImageTexture.new (resource : Option (Option ImageData)) : Option ImageData :=
  match resource with
  | some fileResult =>
    match fileResult with
    | some image_data => some image_data
    | none => none
  | none => some ImageData.empty

/-- Source `ImageTexture::value` from `src/texture.rs`: cyan fallback when the stored
image has height 0, clamp of `u`, flip of `v`, nearest-pixel indices by cast,
and gamma 2.2 decode of the sampled bytes.  `none` models the panic of
`GenericImageView::get_pixel` when an index is out of bounds. -/
noncomputable def ImageTexture.value (img : ImageData) (u v : ℝ) (_p : Vector3) :
    Option Vector3 :=
  if img.height = 0 then some ⟨0, 1, 1⟩
  else
    let u' := min (max u 0) 1
    let v' := 1 - min (max v 0) 1
    let i := rustCastU32 (u' * img.width)
    let j := rustCastU32 (v' * img.height)
    if i < img.width ∧ j < img.height then
      let px := img.pixel i j
      some ⟨((px.1 : ℝ) / 255) ^ (2.2 : ℝ), ((px.2.1 : ℝ) / 255) ^ (2.2 : ℝ),
        ((px.2.2 : ℝ) / 255) ^ (2.2 : ℝ)⟩
    else none

/-- The `image_height` computation in `Camera::new`:
`(image_width as f64 / aspect_ratio) as u32`, raised to 1 when below 1. -/
noncomputable def Camera.imageHeight (image_width : ℕ) (aspect_ratio : ℝ) : ℕ :=
  let h := rustCastU32 ((image_width : ℝ) / aspect_ratio)
  if h < 1 then 1 else h

/-- The per-pixel progress bookkeeping in `Camera::render`:
`current_progress % (total_pixels / 10) == 0` decides whether a progress line
prints.  Rust's remainder by zero panics, modelled by `none`. -/
def Camera.progressStep (current_progress total_pixels : ℕ) : Option Bool :=
  if total_pixels / 10 = 0 then none
  else some (decide (current_progress % (total_pixels / 10) = 0))

end RayTracer

namespace RayTracer

theorem Vector3.add_def (a b : Vector3) : a + b = ⟨a.x + b.x, a.y + b.y, a.z + b.z⟩ := rfl
theorem Vector3.sub_def (a b : Vector3) : a - b = ⟨a.x - b.x, a.y - b.y, a.z - b.z⟩ := rfl
theorem Vector3.neg_def (a : Vector3) : -a = ⟨-a.x, -a.y, -a.z⟩ := rfl
theorem Vector3.mul_def (a b : Vector3) : a * b = ⟨a.x * b.x, a.y * b.y, a.z * b.z⟩ := rfl
theorem Vector3.smul_def (r : ℝ) (a : Vector3) : r • a = ⟨r * a.x, r * a.y, r * a.z⟩ := rfl

theorem Vector3.eq_iff_components {a b : Vector3} : a = b ↔ a.x = b.x ∧ a.y = b.y ∧ a.z = b.z := by
  constructor
  · rintro rfl; exact ⟨rfl, rfl, rfl⟩
  · rcases a with ⟨ax, ay, az⟩
    rcases b with ⟨bx, by', bz⟩
    rintro ⟨h1, h2, h3⟩
    simp only at h1 h2 h3
    rw [h1, h2, h3]

theorem Vector3.length_nonneg (v : Vector3) : 0 ≤ v.length := Real.sqrt_nonneg _

theorem Vector3.length_eq_zero_iff (v : Vector3) : v.length = 0 ↔ v = ⟨0, 0, 0⟩ := by
  unfold Vector3.length
  rw [Real.sqrt_eq_zero
    (add_nonneg (add_nonneg (mul_self_nonneg _) (mul_self_nonneg _)) (mul_self_nonneg _))]
  constructor
  · intro h
    have hx : v.x = 0 := by nlinarith [sq_nonneg v.x, sq_nonneg v.y, sq_nonneg v.z]
    have hy : v.y = 0 := by nlinarith [sq_nonneg v.x, sq_nonneg v.y, sq_nonneg v.z]
    have hz : v.z = 0 := by nlinarith [sq_nonneg v.x, sq_nonneg v.y, sq_nonneg v.z]
    exact Vector3.eq_iff_components.mpr ⟨hx, hy, hz⟩
  · intro h; rw [h]; ring_nf

theorem HitRecord.set_face_normal_t (rec : HitRecord) (ray : Ray) (n : Vector3) :
    (rec.set_face_normal ray n).t = rec.t := rfl

theorem HitRecord.set_face_normal_poz (rec : HitRecord) (ray : Ray) (n : Vector3) :
    (rec.set_face_normal ray n).poz = rec.poz := rfl

theorem HitRecord.set_face_normal_material (rec : HitRecord) (ray : Ray) (n : Vector3) :
    (rec.set_face_normal ray n).material = rec.material := rfl

theorem minByT_mem_aux (l : List HitRecord) (acc : Option HitRecord) (r : HitRecord)
    (h : l.foldl (fun acc r =>
      match acc with
      | none => some r
      | some m => if r.t ≤ m.t then some r else some m) acc = some r) :
    acc = some r ∨ r ∈ l := by
  induction l generalizing acc with
  | nil => exact Or.inl h
  | cons a l ih =>
    simp only [List.foldl_cons] at h
    rcases ih _ h with h' | h'
    · cases acc with
      | none =>
        simp only at h'
        cases h'
        exact Or.inr (List.mem_cons_self _ _)
      | some m =>
        simp only at h'
        by_cases hle : a.t ≤ m.t
        · rw [if_pos hle] at h'
          cases h'
          exact Or.inr (List.mem_cons_self _ _)
        · rw [if_neg hle] at h'
          exact Or.inl h'
    · exact Or.inr (List.mem_cons_of_mem _ h')

/-- Source `min_by` returns an element of the list. -/
theorem minByT_mem (l : List HitRecord) (r : HitRecord) (h : minByT l = some r) : r ∈ l := by
  rcases minByT_mem_aux l none r h with h' | h'
  · cases h'
  · exact h'

theorem minByT_min_aux (l : List HitRecord) (acc : Option HitRecord) (r : HitRecord)
    (h : l.foldl (fun acc r =>
      match acc with
      | none => some r
      | some m => if r.t ≤ m.t then some r else some m) acc = some r) :
    (∀ x ∈ l, r.t ≤ x.t) ∧ (∀ m, acc = some m → r.t ≤ m.t) := by
  induction l generalizing acc with
  | nil =>
    refine ⟨?_, ?_⟩
    · intro x hx
      cases hx
    · intro m hm
      rw [hm] at h
      cases h
      exact le_refl _
  | cons a l ih =>
    simp only [List.foldl_cons] at h
    obtain ⟨h1, h2⟩ := ih _ h
    have hstep : ∃ m', (match acc with
        | none => some a
        | some m => if a.t ≤ m.t then some a else some m) = some m' ∧
        m'.t ≤ a.t ∧ (∀ m, acc = some m → m'.t ≤ m.t) := by
      cases acc with
      | none => exact ⟨a, rfl, le_refl _, fun m hm => by cases hm⟩
      | some m =>
        by_cases hle : a.t ≤ m.t
        · refine ⟨a, ?_, le_refl _, ?_⟩
          · show (if a.t ≤ m.t then some a else some m) = some a
            rw [if_pos hle]
          · intro m' hm'
            cases hm'
            exact hle
        · refine ⟨m, ?_, le_of_lt (lt_of_not_le hle), ?_⟩
          · show (if a.t ≤ m.t then some a else some m) = some m
            rw [if_neg hle]
          · intro m' hm'
            cases hm'
            exact le_refl _
    obtain ⟨m', hm'eq, hm'a, hm'acc⟩ := hstep
    have hr : r.t ≤ m'.t := h2 m' hm'eq
    constructor
    · intro x hx
      rcases List.mem_cons.mp hx with rfl | hx
      · exact le_trans hr hm'a
      · exact h1 x hx
    · intro m hm
      exact le_trans hr (hm'acc m hm)

/-- Source `min_by` with the `t` comparator returns a minimum-`t` element. -/
theorem minByT_min (l : List HitRecord) (r : HitRecord) (h : minByT l = some r) :
    ∀ x ∈ l, r.t ≤ x.t :=
  (minByT_min_aux l none r h).1

/-- Source `Quad::hit` only accepts a `t` inside the caller-supplied interval. -/
theorem quad_hit_t_mem (q : Quad) (ray : Ray) (interval : EReal × EReal)
    (rec : HitRecord) (h : q.hit ray interval = some rec) :
    interval.1 ≤ (rec.t : EReal) ∧ (rec.t : EReal) ≤ interval.2 := by
  simp only [Quad.hit] at h
  split_ifs at h with h1 h2 h3
  · push_neg at h2
    cases h
    exact ⟨h2.1, h2.2⟩

/-- Source `Sphere::hit` only accepts a `t` inside the caller-supplied interval
(the lower bound is enforced strictly, the upper bound inclusively). -/
theorem sphere_hit_t_mem (center : Vector3) (radius : ℝ) (m : ℕ)
    (ray : Ray) (interval : EReal × EReal) (rec : HitRecord)
    (h : Sphere.hit center radius m ray interval = some rec) :
    interval.1 ≤ (rec.t : EReal) ∧ (rec.t : EReal) ≤ interval.2 := by
  simp only [Sphere.hit] at h
  split_ifs at h with h1 h2 h3 h4 h5
  · cases h
    exact ⟨le_of_lt h2, not_lt.mp h3⟩
  · cases h
    exact ⟨le_of_lt h4, not_lt.mp h5⟩

/-- Core arithmetic fact behind `ConstantMedium::hit`: once the clamped entry
and exit parameters (finite, ordered) bound a positive free-path sample, the
reported `t` stays in the caller interval. -/
theorem medium_t_bounds (aE bE i1 i2 : EReal) (L hdist : ℝ)
    (haT : aE ≠ ⊤) (haB : aE ≠ ⊥) (hbT : bE ≠ ⊤) (hbB : bE ≠ ⊥)
    (hL : 0 ≤ L) (hpos : 0 < hdist)
    (hi1 : i1 ≤ aE) (hi2 : bE ≤ i2) (hab : aE < bE)
    (hle : hdist ≤ (bE.toReal - (if aE < 0 then 0 else aE).toReal) * L) :
    i1 ≤ (((if aE < 0 then 0 else aE).toReal + hdist / L : ℝ) : EReal) ∧
    (((if aE < 0 then 0 else aE).toReal + hdist / L : ℝ) : EReal) ≤ i2 := by
  lift aE to ℝ using ⟨haT, haB⟩ with a
  lift bE to ℝ using ⟨hbT, hbB⟩ with b
  have hab' : a < b := EReal.coe_lt_coe_iff.mp hab
  have hcast : (if (a : EReal) < 0 then 0 else (a : EReal)) = ((if a < 0 then 0 else a : ℝ) : EReal) := by
    by_cases h : a < 0
    · rw [if_pos h, if_pos]
      · rfl
      · exact_mod_cast h
    · rw [if_neg h, if_neg]
      intro hc
      exact h (by exact_mod_cast hc)
  rw [hcast] at hle ⊢
  rw [EReal.toReal_coe] at hle ⊢
  set a' : ℝ := if a < 0 then 0 else a with ha'
  have haa' : a ≤ a' := by
    rw [ha']
    by_cases h : a < 0
    · rw [if_pos h]; exact le_of_lt h
    · rw [if_neg h]
  have hLpos : 0 < L := by
    rcases lt_or_eq_of_le hL with h | h
    · exact h
    · exfalso
      rw [← h, mul_zero] at hle
      linarith
  have hstep : 0 < hdist / L := div_pos hpos hLpos
  have hba' : hdist / L ≤ b - a' := (div_le_iff₀ hLpos).mpr hle
  constructor
  · calc i1 ≤ (a : EReal) := hi1
      _ ≤ ((a' : ℝ) : EReal) := EReal.coe_le_coe_iff.mpr haa'
      _ ≤ ((a' + hdist / L : ℝ) : EReal) := EReal.coe_le_coe_iff.mpr (by linarith)
  · calc ((a' + hdist / L : ℝ) : EReal) ≤ ((b : ℝ) : EReal) :=
        EReal.coe_le_coe_iff.mpr (by linarith)
      _ ≤ i2 := hi2

/-- Source `ConstantMedium::hit` reports a `t` inside the caller interval whenever the
density is positive and the uniform draw lies in `(0,1)` (so that the sampled
free-path distance is positive) and the ray length is non-negative. -/
theorem medium_hit_t_in_interval (boundary : Hittable) (density : ℝ) (m : ℕ) (urand : ℝ)
    (hd : 0 < density) (hu0 : 0 < urand) (hu1 : urand < 1)
    (ray : Ray) (interval : EReal × EReal) (rec : HitRecord)
    (hray : 0 ≤ ray.length)
    (h : Hittable.hit (.medium boundary density m urand) ray interval = some rec) :
    interval.1 ≤ (rec.t : EReal) ∧ (rec.t : EReal) ≤ interval.2 := by
  have hpos : 0 < (-(1 / density)) * Real.log urand := by
    have hlog : Real.log urand < 0 := Real.log_neg hu0 hu1
    have hinv : (-(1 / density)) < 0 := by
      have : 0 < 1 / density := by positivity
      linarith
    exact mul_pos_of_neg_of_neg hinv hlog
  simp only [Hittable.hit] at h
  cases hb1 : boundary.hit ray (⊥, ⊤) with
  | none => rw [hb1] at h; cases h
  | some hit1 =>
    rw [hb1] at h
    simp only [] at h
    cases hb2 : boundary.hit ray (((hit1.t + 0.0001 : ℝ) : EReal), ⊤) with
    | none => rw [hb2] at h; cases h
    | some hit2 =>
      rw [hb2] at h
      simp only [] at h
      set t1 : EReal := if (hit1.t : EReal) < interval.1 then interval.1
        else (hit1.t : EReal) with ht1
      set t2 : EReal := if (hit2.t : EReal) > interval.2 then interval.2
        else (hit2.t : EReal) with ht2
      by_cases hguard : t1 ≥ t2
      · rw [if_pos hguard] at h
        cases h
      · rw [if_neg hguard] at h
        by_cases hfar : (-(1 / density)) * Real.log urand >
            (t2.toReal - (if t1 < 0 then 0 else t1).toReal) * ray.length
        · rw [if_pos hfar] at h
          cases h
        · rw [if_neg hfar] at h
          cases h
          have hi1 : interval.1 ≤ t1 := by
            rw [ht1]
            by_cases hc : (hit1.t : EReal) < interval.1
            · rw [if_pos hc]
            · rw [if_neg hc]; exact not_lt.mp hc
          have hi2 : t2 ≤ interval.2 := by
            rw [ht2]
            by_cases hc : (hit2.t : EReal) > interval.2
            · rw [if_pos hc]
            · rw [if_neg hc]; exact not_lt.mp hc
          have hab : t1 < t2 := lt_of_not_ge hguard
          have haB : t1 ≠ ⊥ := by
            rw [ht1]
            by_cases hc : (hit1.t : EReal) < interval.1
            · rw [if_pos hc]
              exact ne_bot_of_gt hc
            · rw [if_neg hc]
              exact EReal.coe_ne_bot _
          have haT : t1 ≠ ⊤ := ne_top_of_lt hab
          have hbB : t2 ≠ ⊥ := ne_bot_of_gt hab
          have hbT : t2 ≠ ⊤ := by
            rw [ht2]
            by_cases hc : (hit2.t : EReal) > interval.2
            · rw [if_pos hc]
              exact ne_top_of_lt hc
            · rw [if_neg hc]
              exact EReal.coe_ne_top _
          exact medium_t_bounds t1 t2 interval.1 interval.2 ray.length
            ((-(1 / density)) * Real.log urand) haT haB hbT hbB hray hpos hi1 hi2 hab
            (not_lt.mp hfar)

/-- C2 -- for every hittable variant (Sphere, Quad, BoxQuad, ConstantMedium,
Translate, RotateY), every ray with the non-negative stored length that
`Ray::new` guarantees, and every search interval: when `hit` returns a record,
its `t` lies within the caller-supplied interval, `t_min ≤ t ≤ t_max`.
For `ConstantMedium`, well-formedness supplies the positive density the scenes
use and a uniform draw in `(0,1)`. -/
theorem hit_t_in_interval (obj : Hittable) (ray : Ray) (interval : EReal × EReal)
    (rec : HitRecord) (hwf : WF obj) (hray : 0 ≤ ray.length)
    (h : obj.hit ray interval = some rec) :
    interval.1 ≤ (rec.t : EReal) ∧ (rec.t : EReal) ≤ interval.2 := by
  revert ray interval rec
  induction hwf with
  | sphere =>
    intro ray interval rec _ h
    exact sphere_hit_t_mem _ _ _ _ _ _ h
  | quadObj =>
    intro ray interval rec _ h
    exact quad_hit_t_mem _ _ _ _ h
  | boxQuad =>
    intro ray interval rec _ h
    simp only [Hittable.hit] at h
    have hmem := minByT_mem _ _ h
    obtain ⟨q, _, hq⟩ := List.mem_filterMap.mp hmem
    exact quad_hit_t_mem _ _ _ _ hq
  | medium hd hu0 hu1 _ _ =>
    intro ray interval rec hray h
    exact medium_hit_t_in_interval _ _ _ _ hd hu0 hu1 _ _ _ hray h
  | translate _ ih =>
    intro ray interval rec _ h
    simp only [Hittable.hit] at h
    cases hinner : Hittable.hit _ (Ray.new (ray.origin - _) ray.direction) interval with
    | none => rw [hinner] at h; cases h
    | some inner =>
      rw [hinner] at h
      simp only [] at h
      cases h
      have hres := ih _ _ _ (Vector3.length_nonneg _) hinner
      exact hres
  | rotateY _ ih =>
    intro ray interval rec _ h
    simp only [Hittable.hit] at h
    cases hinner : Hittable.hit _ (Ray.new _ _) interval with
    | none => rw [hinner] at h; cases h
    | some inner =>
      rw [hinner] at h
      simp only [] at h
      cases h
      have hres := ih _ _ _ (Vector3.length_nonneg _) hinner
      exact hres

/-- Concrete evaluation of `Sphere::hit`: a unit sphere at (0,0,-5), probed by
the ray from the origin toward (0,0,-1) over the interval (0.001, 10), is hit
at t = 4 with position (0,0,-4), outward-facing normal (0,0,1), front face,
and spherical texture coordinates (1/4, 1/2). -/
theorem demo_sphere_eval :
    Sphere.hit ⟨0, 0, -5⟩ 1 7 ⟨⟨0, 0, 0⟩, ⟨0, 0, -1⟩, 1⟩
        ((((1 : ℝ) / 1000 : ℝ) : EReal), (((10 : ℝ)) : EReal)) =
      some ⟨4, ⟨0, 0, -4⟩, ⟨0, 0, 1⟩, true, 7, 1 / 4, 1 / 2⟩ := by
  have hsqrt4 : Real.sqrt 4 = 2 := by
    rw [show (4 : ℝ) = 2 ^ 2 by norm_num]
    exact Real.sqrt_sq (by norm_num)
  have hsqrt1 : Real.sqrt 1 = 1 := Real.sqrt_one
  have harg : Complex.arg ⟨0, -1⟩ = -(Real.pi / 2) := by
    have hmk : (⟨0, -1⟩ : ℂ) = -Complex.I := by
      apply Complex.ext <;> simp
    rw [hmk, Complex.arg_neg_I]
  have hpi := Real.pi_ne_zero
  have hu : (-(Real.pi / 2) + Real.pi) / (2 * Real.pi) = 1 / 4 := by
    rw [show -(Real.pi / 2) + Real.pi = Real.pi / 2 by ring]
    field_simp
    ring
  have hv : Real.pi / 2 / Real.pi = 1 / 2 := by
    field_simp
    ring
  simp only [Sphere.hit, Vector3.dot, Vector3.sub_def, Vector3.add_def, Vector3.smul_def,
    Ray.pointAt, Vector3.normalize, Vector3.length, Sphere.getSphereUV,
    HitRecord.new, HitRecord.set_face_normal]
  norm_num [hsqrt4, hsqrt1, EReal.coe_lt_coe_iff, harg, hu, hv, Real.arccos_zero]

theorem HitRecord.eq_iff_fields {a b : HitRecord} :
    a = b ↔ a.t = b.t ∧ a.poz = b.poz ∧ a.normal = b.normal ∧ a.front_face = b.front_face ∧
      a.material = b.material ∧ a.u = b.u ∧ a.v = b.v := by
  constructor
  · rintro rfl
    exact ⟨rfl, rfl, rfl, rfl, rfl, rfl, rfl⟩
  · rcases a with ⟨t1, p1, n1, f1, m1, u1, v1⟩
    rcases b with ⟨t2, p2, n2, f2, m2, u2, v2⟩
    rintro ⟨h1, h2, h3, h4, h5, h6, h7⟩
    simp only at h1 h2 h3 h4 h5 h6 h7
    rw [h1, h2, h3, h4, h5, h6, h7]

/-- Witness for C2: the demo sphere hit at t = 4 indeed lies inside the
interval (0.001, 10). -/
theorem hit_t_in_interval_witness :
    Hittable.hit (.sphere ⟨0, 0, -5⟩ 1 7) ⟨⟨0, 0, 0⟩, ⟨0, 0, -1⟩, 1⟩
        ((((1 : ℝ) / 1000 : ℝ) : EReal), (((10 : ℝ)) : EReal)) =
      some ⟨4, ⟨0, 0, -4⟩, ⟨0, 0, 1⟩, true, 7, 1 / 4, 1 / 2⟩ ∧
    ((((1 : ℝ) / 1000 : ℝ) : EReal) ≤ (((4 : ℝ)) : EReal) ∧
      (((4 : ℝ)) : EReal) ≤ (((10 : ℝ)) : EReal)) := by
  have h : Hittable.hit (.sphere ⟨0, 0, -5⟩ 1 7) ⟨⟨0, 0, 0⟩, ⟨0, 0, -1⟩, 1⟩
      ((((1 : ℝ) / 1000 : ℝ) : EReal), (((10 : ℝ)) : EReal)) =
      some ⟨4, ⟨0, 0, -4⟩, ⟨0, 0, 1⟩, true, 7, 1 / 4, 1 / 2⟩ := demo_sphere_eval
  exact ⟨h, hit_t_in_interval _ _ _ _ WF.sphere (by norm_num) h⟩

/-- C8 -- `Translate::hit` delegates to the wrapped object on the ray whose
origin is shifted by minus the offset, and a hit is exactly an inner hit whose
position is shifted back by the offset while `t`, normal, `front_face`, `u`,
`v`, and the material reference are unchanged. -/
theorem translate_hit_spec (obj : Hittable) (offset : Vector3) (ray : Ray)
    (interval : EReal × EReal) (rec : HitRecord) :
    Hittable.hit (.translate obj offset) ray interval = some rec ↔
      ∃ inner, obj.hit (Ray.new (ray.origin - offset) ray.direction) interval = some inner ∧
        rec.t = inner.t ∧ rec.poz = inner.poz + offset ∧ rec.normal = inner.normal ∧
        rec.front_face = inner.front_face ∧ rec.u = inner.u ∧ rec.v = inner.v ∧
        rec.material = inner.material := by
  simp only [Hittable.hit]
  cases hinner : obj.hit (Ray.new (ray.origin - offset) ray.direction) interval with
  | none =>
    simp only []
    constructor
    · intro h; cases h
    · rintro ⟨inner, hinner', -⟩
      exact Option.noConfusion hinner'
  | some inner =>
    simp only []
    constructor
    · intro h
      cases h
      exact ⟨inner, rfl, rfl, rfl, rfl, rfl, rfl, rfl, rfl⟩
    · rintro ⟨inner', hinner', ht, hpoz, hn, hff, hu, hv, hm⟩
      have heq : inner' = inner := by
        injection hinner' with h2
        exact h2.symm
      subst heq
      have hrec : rec = { inner' with poz := inner'.poz + offset } :=
        HitRecord.eq_iff_fields.mpr ⟨ht, hpoz, hn, hff, hm, hu, hv⟩
      rw [hrec]

/-- Witness for C8: translating the demo sphere by (1,0,0) and shooting the
correspondingly shifted ray reproduces the inner hit with only the position
moved back by the offset. -/
theorem translate_hit_spec_witness :
    Hittable.hit (.translate (.sphere ⟨0, 0, -5⟩ 1 7) ⟨1, 0, 0⟩)
        ⟨⟨1, 0, 0⟩, ⟨0, 0, -1⟩, 1⟩
        ((((1 : ℝ) / 1000 : ℝ) : EReal), (((10 : ℝ)) : EReal)) =
      some ⟨4, ⟨1, 0, -4⟩, ⟨0, 0, 1⟩, true, 7, 1 / 4, 1 / 2⟩ := by
  have hsqrt1 : Real.sqrt 1 = 1 := Real.sqrt_one
  have hray0 : Ray.new ((⟨1, 0, 0⟩ : Vector3) - ⟨1, 0, 0⟩) ⟨0, 0, -1⟩ =
      (⟨⟨0, 0, 0⟩, ⟨0, 0, -1⟩, 1⟩ : Ray) := by
    simp only [Ray.new, Vector3.sub_def, Vector3.normalize, Vector3.length]
    norm_num
  apply (translate_hit_spec (.sphere ⟨0, 0, -5⟩ 1 7) ⟨1, 0, 0⟩
    ⟨⟨1, 0, 0⟩, ⟨0, 0, -1⟩, 1⟩ _ _).mpr
  refine ⟨⟨4, ⟨0, 0, -4⟩, ⟨0, 0, 1⟩, true, 7, 1 / 4, 1 / 2⟩, ?_, rfl, ?_, rfl, rfl, rfl, rfl, rfl⟩
  · show Hittable.hit (.sphere ⟨0, 0, -5⟩ 1 7) (Ray.new ((⟨1, 0, 0⟩ : Vector3) - ⟨1, 0, 0⟩)
      ⟨0, 0, -1⟩) ((((1 : ℝ) / 1000 : ℝ) : EReal), (((10 : ℝ)) : EReal)) = _
    rw [hray0]
    exact demo_sphere_eval
  · simp only [Vector3.add_def]
    norm_num


theorem Vector3.dot_comm (a b : Vector3) : a.dot b = b.dot a := by
  simp only [Vector3.dot]
  ring

theorem Vector3.dot_neg_left (a b : Vector3) : (-a).dot b = -(a.dot b) := by
  simp only [Vector3.dot, Vector3.neg_def]
  ring

/-- Dotting with a normalized vector divides the dot product by the length
(also in the degenerate zero-length case, where both sides vanish). -/
theorem Vector3.normalize_dot (d w : Vector3) :
    (d.normalize).dot w = d.dot w / d.length := by
  unfold Vector3.normalize
  by_cases h : d.length = 0
  · rw [if_pos h, h]
    have hd : d = ⟨0, 0, 0⟩ := (Vector3.length_eq_zero_iff d).mp h
    rw [hd]
    simp [Vector3.dot]
  · rw [if_neg h]
    simp only [Vector3.dot]
    ring

theorem Vector3.normalize_dot_nonpos_iff (d w : Vector3) :
    (d.normalize).dot w ≤ 0 ↔ d.dot w ≤ 0 := by
  rw [Vector3.normalize_dot]
  rcases eq_or_lt_of_le (Vector3.length_nonneg d) with h | h
  · have hd : d = ⟨0, 0, 0⟩ := (Vector3.length_eq_zero_iff d).mp h.symm
    rw [← h, hd]
    simp [Vector3.dot]
  · rw [div_le_iff₀ h, zero_mul]

theorem Vector3.normalize_dot_neg_iff (d w : Vector3) :
    (d.normalize).dot w < 0 ↔ d.dot w < 0 := by
  rw [Vector3.normalize_dot]
  rcases eq_or_lt_of_le (Vector3.length_nonneg d) with h | h
  · have hd : d = ⟨0, 0, 0⟩ := (Vector3.length_eq_zero_iff d).mp h.symm
    rw [← h, hd]
    simp [Vector3.dot]
  · rw [div_lt_iff₀ h, zero_mul]

theorem set_face_normal_front_face (rec0 : HitRecord) (ray : Ray) (w : Vector3) :
    (rec0.set_face_normal ray w).front_face = decide (ray.direction.dot w ≤ 0) := rfl

theorem set_face_normal_normal (rec0 : HitRecord) (ray : Ray) (w : Vector3) :
    (rec0.set_face_normal ray w).normal = if ray.direction.dot w ≤ 0 then w else -w := by
  simp only [HitRecord.set_face_normal]
  by_cases hp : ray.direction.dot w ≤ 0
  · rw [if_pos (decide_eq_true hp), if_pos hp]
  · rw [if_neg ?_, if_neg hp]
    simp only [decide_eq_true_eq]
    exact hp

/-- What `set_face_normal` guarantees: `front_face` holds exactly when the ray
direction and the outward normal point in non-opposing directions, and the
stored normal is the outward normal flipped to point against the ray. -/
theorem set_face_normal_oriented (rec0 : HitRecord) (ray : Ray) (w : Vector3) :
    ((rec0.set_face_normal ray w).front_face = true ↔ ray.direction.dot w ≤ 0) ∧
    (rec0.set_face_normal ray w).normal =
      (if (rec0.set_face_normal ray w).front_face then w else -w) ∧
    ((rec0.set_face_normal ray w).normal).dot ray.direction ≤ 0 ∧
    ((rec0.set_face_normal ray w).front_face = false →
      ((rec0.set_face_normal ray w).normal).dot ray.direction < 0) := by
  rw [set_face_normal_front_face, set_face_normal_normal]
  by_cases hp : ray.direction.dot w ≤ 0
  · rw [if_pos hp, if_pos (by simp [decide_eq_true hp])]
    refine ⟨by simp [decide_eq_true hp, hp], rfl, ?_, ?_⟩
    · rw [Vector3.dot_comm]
      exact hp
    · intro hff
      rw [decide_eq_true hp] at hff
      cases hff
  · rw [if_neg hp, if_neg ?_]
    · refine ⟨by simp [hp], rfl, ?_, ?_⟩
      · rw [Vector3.dot_neg_left, Vector3.dot_comm]
        push_neg at hp
        linarith
      · intro _
        rw [Vector3.dot_neg_left, Vector3.dot_comm]
        push_neg at hp
        linarith
    · simp only [decide_eq_true_eq]
      exact hp

/-- Every record produced by `Sphere::hit` went through `set_face_normal`. -/
theorem sphere_hit_record_via_face_normal (center : Vector3) (radius : ℝ) (m : ℕ)
    (ray : Ray) (interval : EReal × EReal) (rec : HitRecord)
    (h : Sphere.hit center radius m ray interval = some rec) :
    ∃ (rec0 : HitRecord) (w : Vector3), rec = rec0.set_face_normal ray w := by
  simp only [Sphere.hit] at h
  split_ifs at h
  · cases h
    exact ⟨_, _, rfl⟩
  · cases h
    exact ⟨_, _, rfl⟩

/-- Every record produced by `Quad::hit` went through `set_face_normal`. -/
theorem quad_hit_record_via_face_normal (q : Quad) (ray : Ray) (interval : EReal × EReal)
    (rec : HitRecord) (h : q.hit ray interval = some rec) :
    ∃ (rec0 : HitRecord) (w : Vector3), rec = rec0.set_face_normal ray w := by
  simp only [Quad.hit] at h
  split_ifs at h
  cases h
  exact ⟨_, _, rfl⟩

theorem rotate_dot_transfer (s c : ℝ) (n d : Vector3) :
    (⟨c * n.x + s * n.z, n.y, -s * n.x + c * n.z⟩ : Vector3).dot d =
      n.dot ⟨c * d.x - s * d.z, d.y, s * d.x + c * d.z⟩ := by
  simp only [Vector3.dot]
  ring

/-- C3 (amended) -- for every medium-free hittable variant (Sphere, Quad,
BoxQuad, Translate, RotateY), a returned record carries an outward normal `w`
with `front_face = (direction · w ≤ 0)`, the stored normal being `w` flipped
when necessary so that `normal · direction ≤ 0` (strictly when the front face
flag is false).  `ConstantMedium` is excluded: it builds its record without
`set_face_normal` and keeps the placeholder normal `(1,0,0)` (see the
counterexample). -/
theorem hit_face_normal_oriented (obj : Hittable) (ray : Ray)
    (interval : EReal × EReal) (rec : HitRecord) (hmf : MediumFree obj)
    (h : obj.hit ray interval = some rec) :
    ∃ outward : Vector3,
      (rec.front_face = true ↔ ray.direction.dot outward ≤ 0) ∧
      rec.normal = (if rec.front_face then outward else -outward) ∧
      rec.normal.dot ray.direction ≤ 0 ∧
      (rec.front_face = false → rec.normal.dot ray.direction < 0) := by
  revert ray interval rec
  induction hmf with
  | sphere =>
    intro ray interval rec h
    simp only [Hittable.hit] at h
    obtain ⟨rec0, w, rfl⟩ := sphere_hit_record_via_face_normal _ _ _ _ _ _ h
    exact ⟨w, set_face_normal_oriented rec0 ray w⟩
  | quadObj =>
    intro ray interval rec h
    simp only [Hittable.hit] at h
    obtain ⟨rec0, w, rfl⟩ := quad_hit_record_via_face_normal _ _ _ _ h
    exact ⟨w, set_face_normal_oriented rec0 ray w⟩
  | boxQuad =>
    intro ray interval rec h
    simp only [Hittable.hit] at h
    obtain ⟨q, _, hq⟩ := List.mem_filterMap.mp (minByT_mem _ _ h)
    obtain ⟨rec0, w, rfl⟩ := quad_hit_record_via_face_normal _ _ _ _ hq
    exact ⟨w, set_face_normal_oriented rec0 ray w⟩
  | @translate object offset hmf ih =>
    intro ray interval rec h
    simp only [Hittable.hit] at h
    cases hinner : object.hit (Ray.new (ray.origin - offset) ray.direction) interval with
    | none => rw [hinner] at h; cases h
    | some inner =>
      rw [hinner] at h
      simp only [] at h
      cases h
      obtain ⟨w, h1, h2, h3, h4⟩ := ih _ _ _ hinner
      simp only [Ray.new] at h1 h3 h4
      refine ⟨w, ?_, ?_, ?_, ?_⟩
      · exact h1.trans (Vector3.normalize_dot_nonpos_iff _ _)
      · exact h2
      · have h3' : (ray.direction.normalize).dot inner.normal ≤ 0 := by
          rw [Vector3.dot_comm]; exact h3
        have h3'' := (Vector3.normalize_dot_nonpos_iff _ _).mp h3'
        show inner.normal.dot ray.direction ≤ 0
        rw [Vector3.dot_comm]
        exact h3''
      · intro hff
        have h4' : (ray.direction.normalize).dot inner.normal < 0 := by
          rw [Vector3.dot_comm]; exact h4 hff
        have h4'' := (Vector3.normalize_dot_neg_iff _ _).mp h4'
        show inner.normal.dot ray.direction < 0
        rw [Vector3.dot_comm]
        exact h4''
  | @rotateY object s c hmf ih =>
    intro ray interval rec h
    simp only [Hittable.hit] at h
    cases hinner : object.hit (Ray.new
        ⟨c * ray.origin.x - s * ray.origin.z, ray.origin.y, s * ray.origin.x + c * ray.origin.z⟩
        ⟨c * ray.direction.x - s * ray.direction.z, ray.direction.y,
          s * ray.direction.x + c * ray.direction.z⟩) interval with
    | none => rw [hinner] at h; cases h
    | some inner =>
      rw [hinner] at h
      simp only [] at h
      cases h
      obtain ⟨w, h1, h2, h3, h4⟩ := ih _ _ _ hinner
      simp only [Ray.new] at h1 h3 h4
      refine ⟨⟨c * w.x + s * w.z, w.y, -s * w.x + c * w.z⟩, ?_, ?_, ?_, ?_⟩
      · have hdw : (⟨c * ray.direction.x - s * ray.direction.z, ray.direction.y,
            s * ray.direction.x + c * ray.direction.z⟩ : Vector3).dot w =
            ray.direction.dot ⟨c * w.x + s * w.z, w.y, -s * w.x + c * w.z⟩ := by
          simp only [Vector3.dot]
          ring
        exact h1.trans ((Vector3.normalize_dot_nonpos_iff _ _).trans (by rw [hdw]))
      · show (⟨c * inner.normal.x + s * inner.normal.z, inner.normal.y,
            -s * inner.normal.x + c * inner.normal.z⟩ : Vector3) =
          if inner.front_face then
            (⟨c * w.x + s * w.z, w.y, -s * w.x + c * w.z⟩ : Vector3)
          else -(⟨c * w.x + s * w.z, w.y, -s * w.x + c * w.z⟩ : Vector3)
        rw [h2]
        cases hb : inner.front_face
        · simp only [Bool.false_eq_true, if_false]
          apply Vector3.eq_iff_components.mpr
          simp only [Vector3.neg_def]
          exact ⟨by ring, by ring, by ring⟩
        · simp
      · have h3' := (Vector3.normalize_dot_nonpos_iff _ _).mp
          (by rw [Vector3.dot_comm]; exact h3)
        show (⟨c * inner.normal.x + s * inner.normal.z, inner.normal.y,
            -s * inner.normal.x + c * inner.normal.z⟩ : Vector3).dot ray.direction ≤ 0
        rw [rotate_dot_transfer, Vector3.dot_comm]
        exact h3'
      · intro hff
        have h4' := (Vector3.normalize_dot_neg_iff _ _).mp
          (by rw [Vector3.dot_comm]; exact h4 hff)
        show (⟨c * inner.normal.x + s * inner.normal.z, inner.normal.y,
            -s * inner.normal.x + c * inner.normal.z⟩ : Vector3).dot ray.direction < 0
        rw [rotate_dot_transfer, Vector3.dot_comm]
        exact h4'


/-- Witness for C3 (amended): the demo sphere hit, front face, normal (0,0,1)
against the ray direction (0,0,-1). -/
theorem hit_face_normal_oriented_witness :
    Hittable.hit (.sphere ⟨0, 0, -5⟩ 1 7) ⟨⟨0, 0, 0⟩, ⟨0, 0, -1⟩, 1⟩
        ((((1 : ℝ) / 1000 : ℝ) : EReal), (((10 : ℝ)) : EReal)) =
      some ⟨4, ⟨0, 0, -4⟩, ⟨0, 0, 1⟩, true, 7, 1 / 4, 1 / 2⟩ ∧
    (∃ outward : Vector3,
      ((true : Bool) = true ↔ (⟨0, 0, -1⟩ : Vector3).dot outward ≤ 0) ∧
      (⟨0, 0, 1⟩ : Vector3) = (if (true : Bool) then outward else -outward) ∧
      (⟨0, 0, 1⟩ : Vector3).dot ⟨0, 0, -1⟩ ≤ 0 ∧
      ((true : Bool) = false → (⟨0, 0, 1⟩ : Vector3).dot ⟨0, 0, -1⟩ < 0)) :=
  ⟨demo_sphere_eval,
    hit_face_normal_oriented (.sphere ⟨0, 0, -5⟩ 1 7) ⟨⟨0, 0, 0⟩, ⟨0, 0, -1⟩, 1⟩
      ((((1 : ℝ) / 1000 : ℝ) : EReal), (((10 : ℝ)) : EReal))
      ⟨4, ⟨0, 0, -4⟩, ⟨0, 0, 1⟩, true, 7, 1 / 4, 1 / 2⟩ MediumFree.sphere demo_sphere_eval⟩

/-- Concrete evaluation: the unit sphere at the origin, probed over the
unbounded interval by the ray from (-3,0,0) toward (1,0,0), is entered at
t = 2 (front face, normal (-1,0,0)). -/
theorem demo_sphere_eval_unbounded :
    Sphere.hit ⟨0, 0, 0⟩ 1 5 ⟨⟨-3, 0, 0⟩, ⟨1, 0, 0⟩, 1⟩ (⊥, ⊤) =
      some ⟨2, ⟨-1, 0, 0⟩, ⟨-1, 0, 0⟩, true, 5, 1, 1 / 2⟩ := by
  have hsqrt4 : Real.sqrt 4 = 2 := by
    rw [show (4 : ℝ) = 2 ^ 2 by norm_num]
    exact Real.sqrt_sq (by norm_num)
  have hsqrt1 : Real.sqrt 1 = 1 := Real.sqrt_one
  have harg : Complex.arg ⟨-1, 0⟩ = Real.pi := by
    have hmk : (⟨-1, 0⟩ : ℂ) = -1 := by
      apply Complex.ext <;> simp
    rw [hmk, Complex.arg_neg_one]
  have hpi := Real.pi_ne_zero
  have hu : (Real.pi + Real.pi) / (2 * Real.pi) = 1 := by
    field_simp
    ring
  have hv : Real.pi / 2 / Real.pi = 1 / 2 := by
    field_simp
    ring
  simp only [Sphere.hit, Vector3.dot, Vector3.sub_def, Vector3.add_def, Vector3.smul_def,
    Ray.pointAt, Vector3.normalize, Vector3.length, Sphere.getSphereUV,
    HitRecord.new, HitRecord.set_face_normal]
  norm_num [hsqrt4, hsqrt1, EReal.bot_lt_coe, not_top_lt, harg, hu, hv, Real.arccos_zero]

/-- Concrete evaluation: the same sphere probed just past the entry point is
exited at t = 4 (back face: the placeholder-flipping gives normal (-1,0,0)
and front_face = false). -/
theorem demo_sphere_eval_offset :
    Sphere.hit ⟨0, 0, 0⟩ 1 5 ⟨⟨-3, 0, 0⟩, ⟨1, 0, 0⟩, 1⟩ (((2 + 0.0001 : ℝ) : EReal), ⊤) =
      some ⟨4, ⟨1, 0, 0⟩, ⟨-1, 0, 0⟩, false, 5, 1 / 2, 1 / 2⟩ := by
  have hsqrt4 : Real.sqrt 4 = 2 := by
    rw [show (4 : ℝ) = 2 ^ 2 by norm_num]
    exact Real.sqrt_sq (by norm_num)
  have hsqrt1 : Real.sqrt 1 = 1 := Real.sqrt_one
  have harg : Complex.arg ⟨1, 0⟩ = 0 := by
    have hmk : (⟨1, 0⟩ : ℂ) = 1 := by
      apply Complex.ext <;> simp
    rw [hmk, Complex.arg_one]
  have hpi := Real.pi_ne_zero
  have hu : Real.pi / (2 * Real.pi) = 1 / 2 := by
    field_simp
    ring
  have hv : Real.pi / 2 / Real.pi = 1 / 2 := by
    field_simp
    ring
  simp only [Sphere.hit, Vector3.dot, Vector3.sub_def, Vector3.add_def, Vector3.smul_def,
    Ray.pointAt, Vector3.normalize, Vector3.length, Sphere.getSphereUV,
    HitRecord.new, HitRecord.set_face_normal]
  norm_num [hsqrt4, hsqrt1, EReal.coe_lt_coe_iff, not_top_lt, harg, hu, hv, Real.arccos_zero,
    Vector3.neg_def]

/-- C3 counterexample -- `ConstantMedium::hit` builds its record with
`HitRecord::new` and never calls `set_face_normal`: with a positive density, a
uniform draw of e⁻¹ and the ray from (-3,0,0) toward (1,0,0) through a unit
boundary sphere at the origin, the returned record has `front_face = true` and
the placeholder normal (1,0,0), whose dot product with the ray direction is
1 > 0 — the claimed orientation invariant fails. -/
theorem medium_hit_counterexample :
    Hittable.hit (.medium (.sphere ⟨0, 0, 0⟩ 1 5) 1 9 (Real.exp (-1)))
        ⟨⟨-3, 0, 0⟩, ⟨1, 0, 0⟩, 1⟩ ((((1 : ℝ) / 1000 : ℝ) : EReal), (((10 : ℝ)) : EReal)) =
      some ⟨3, ⟨0, 0, 0⟩, ⟨1, 0, 0⟩, true, 9, 0, 0⟩ ∧
    ¬ ((⟨1, 0, 0⟩ : Vector3).dot (⟨⟨-3, 0, 0⟩, ⟨1, 0, 0⟩, 1⟩ : Ray).direction ≤ 0) := by
  constructor
  · simp only [Hittable.hit]
    rw [demo_sphere_eval_unbounded]
    simp only []
    rw [show ((((⟨2, ⟨-1, 0, 0⟩, ⟨-1, 0, 0⟩, true, 5, 1, 1 / 2⟩ : HitRecord).t
        + 0.0001 : ℝ)) : EReal) = ((2 + 0.0001 : ℝ) : EReal) from rfl]
    rw [demo_sphere_eval_offset]
    have hc1 : ¬ (((2 : ℝ) : EReal) < (((1 : ℝ) / 1000 : ℝ) : EReal)) := by
      rw [EReal.coe_lt_coe_iff]
      norm_num
    have hc2 : ¬ (((4 : ℝ) : EReal) > (((10 : ℝ)) : EReal)) := by
      rw [gt_iff_lt, EReal.coe_lt_coe_iff]
      norm_num
    simp only [hc1, if_false, hc2]
    have hg : ¬ (((2 : ℝ) : EReal) ≥ ((4 : ℝ) : EReal)) := by
      rw [ge_iff_le, EReal.coe_le_coe_iff]
      norm_num
    rw [if_neg hg]
    have hc3 : ¬ (((2 : ℝ) : EReal) < 0) := by
      rw [show ((0 : EReal)) = (((0 : ℝ)) : EReal) from rfl, EReal.coe_lt_coe_iff]
      norm_num
    rw [if_neg hc3]
    have hc4 : ¬ (-(1 / (1 : ℝ)) * Real.log (Real.exp (-1)) >
        ((((4 : ℝ) : EReal)).toReal - (((2 : ℝ) : EReal)).toReal) * 1) := by
      rw [Real.log_exp, EReal.toReal_coe, EReal.toReal_coe]
      norm_num
    rw [if_neg hc4]
    simp only [EReal.toReal_coe, HitRecord.new, Ray.pointAt, Vector3.add_def,
      Vector3.smul_def]
    norm_num [Real.log_exp]
  · simp only [Vector3.dot]
    norm_num


/-- C7 -- `normalize()` of the zero vector returns the zero vector (0,0,0);
for every other vector it returns the vector divided by its length. -/
theorem normalize_spec (v : Vector3) (hv : v ≠ ⟨0, 0, 0⟩) :
    Vector3.normalize ⟨0, 0, 0⟩ = ⟨0, 0, 0⟩ ∧
    v.normalize = v.divScalar v.length := by
  constructor
  · unfold Vector3.normalize
    rw [if_pos ((Vector3.length_eq_zero_iff _).mpr rfl)]
  · unfold Vector3.normalize
    rw [if_neg (fun h => hv ((Vector3.length_eq_zero_iff v).mp h))]
    rfl

/-- Witness for C7: the vector (3,4,0) is nonzero and normalizes to (3/5, 4/5, 0). -/
theorem normalize_spec_witness :
    (⟨3, 4, 0⟩ : Vector3) ≠ ⟨0, 0, 0⟩ ∧
    Vector3.normalize ⟨3, 4, 0⟩ = ⟨3 / 5, 4 / 5, 0⟩ := by
  have hne : (⟨3, 4, 0⟩ : Vector3) ≠ ⟨0, 0, 0⟩ := by
    intro h
    have := congrArg Vector3.x h
    norm_num at this
  refine ⟨hne, ?_⟩
  have h := (normalize_spec ⟨3, 4, 0⟩ hne).2
  have hlen : (Vector3.length ⟨3, 4, 0⟩) = 5 := by
    unfold Vector3.length
    rw [show ((3 : ℝ) * 3 + 4 * 4 + 0 * 0) = 5 ^ 2 by norm_num]
    exact Real.sqrt_sq (by norm_num)
  rw [h]
  unfold Vector3.divScalar
  rw [hlen]
  norm_num

/-- C4 -- whenever the total-internal-reflection condition
`refraction_ratio * sin_theta > 1` holds, `Dielectric::scatter` returns the
reflected direction `reflect(ray.direction, normal)` (wrapped in `Ray::new`),
independently of the uniform random draw. -/
theorem dielectric_tir_always_reflects
    (refraction_index rand : ℝ) (ray : Ray) (rec : HitRecord)
    (h : Dielectric.refractionRatio refraction_index rec * Dielectric.sinTheta ray rec > 1) :
    Dielectric.scatter refraction_index rand ray rec =
      some (Ray.new rec.poz (reflect ray.direction rec.normal), ⟨1, 1, 1⟩) := by
  simp only [Dielectric.scatter]
  rw [if_pos (Or.inl h)]

/-- Witness for C4: a ray travelling inside a medium of refraction index 2,
hitting the boundary at grazing incidence (cos θ = 0), satisfies the
total-internal-reflection condition, and `scatter` returns the reflection for
the concrete random draw 0. -/
theorem dielectric_tir_always_reflects_witness :
    Dielectric.refractionRatio 2 ⟨1, ⟨0, 0, 0⟩, ⟨0, 0, 1⟩, false, 0, 0, 0⟩ *
        Dielectric.sinTheta ⟨⟨0, 0, 0⟩, ⟨1, 0, 0⟩, 1⟩ ⟨1, ⟨0, 0, 0⟩, ⟨0, 0, 1⟩, false, 0, 0, 0⟩
        > 1 ∧
    Dielectric.scatter 2 0 ⟨⟨0, 0, 0⟩, ⟨1, 0, 0⟩, 1⟩ ⟨1, ⟨0, 0, 0⟩, ⟨0, 0, 1⟩, false, 0, 0, 0⟩ =
      some (Ray.new ⟨0, 0, 0⟩
        (reflect (⟨1, 0, 0⟩ : Vector3) (⟨0, 0, 1⟩ : Vector3)), ⟨1, 1, 1⟩) := by
  have hcos : Dielectric.cosTheta ⟨⟨0, 0, 0⟩, ⟨1, 0, 0⟩, 1⟩
      ⟨1, ⟨0, 0, 0⟩, ⟨0, 0, 1⟩, false, 0, 0, 0⟩ = 0 := by
    unfold Dielectric.cosTheta Vector3.dot
    simp only [Vector3.neg_def]
    norm_num
  have hsin : Dielectric.sinTheta ⟨⟨0, 0, 0⟩, ⟨1, 0, 0⟩, 1⟩
      ⟨1, ⟨0, 0, 0⟩, ⟨0, 0, 1⟩, false, 0, 0, 0⟩ = 1 := by
    unfold Dielectric.sinTheta
    rw [hcos]
    norm_num
  have hratio : Dielectric.refractionRatio 2 ⟨1, ⟨0, 0, 0⟩, ⟨0, 0, 1⟩, false, 0, 0, 0⟩ = 2 := by
    unfold Dielectric.refractionRatio
    norm_num
  have h : Dielectric.refractionRatio 2 ⟨1, ⟨0, 0, 0⟩, ⟨0, 0, 1⟩, false, 0, 0, 0⟩ *
      Dielectric.sinTheta ⟨⟨0, 0, 0⟩, ⟨1, 0, 0⟩, 1⟩ ⟨1, ⟨0, 0, 0⟩, ⟨0, 0, 1⟩, false, 0, 0, 0⟩
      > 1 := by
    rw [hratio, hsin]; norm_num
  exact ⟨h, dielectric_tir_always_reflects 2 0 _ _ h⟩


theorem Vector3.add_comm' (a b : Vector3) : a + b = b + a := by
  apply Vector3.eq_iff_components.mpr
  simp only [Vector3.add_def]
  exact ⟨by ring, by ring, by ring⟩

/-- C1 -- `ray_color` returns black at depth 0; at positive depth it takes the
nearest hit (by `t`) over the interval (0.001, +∞) across the scene list, and
returns `emitted + attenuation ⊙ ray_color(scattered, depth-1)` when the
material scatters, the emitted color alone when it does not, and the
background applied to the ray direction on a miss. -/
theorem rayColor_spec (M : ℕ → MaterialImpl) (background : Vector3 → Vector3)
    (hittable : List (Ray → EReal × EReal → Option HitRecord)) (ray : Ray) :
    rayColor M background hittable ray 0 = (⟨0, 0, 0⟩ : Vector3) ∧
    ∀ depth : ℕ,
      (minByT (hittable.filterMap fun h => h ray (((0.001 : ℝ) : EReal), ⊤)) = none →
        rayColor M background hittable ray (depth + 1) = background ray.direction) ∧
      (∀ record,
        minByT (hittable.filterMap fun h => h ray (((0.001 : ℝ) : EReal), ⊤)) = some record →
        (∃ h ∈ hittable, h ray (((0.001 : ℝ) : EReal), ⊤) = some record) ∧
        (∀ h ∈ hittable, ∀ r, h ray (((0.001 : ℝ) : EReal), ⊤) = some r → record.t ≤ r.t) ∧
        rayColor M background hittable ray (depth + 1) =
          (match (M record.material).scatter ray record with
           | some (scattered, attenuation) =>
             (M record.material).emitted record.u record.v record.poz +
               attenuation * rayColor M background hittable scattered depth
           | none => (M record.material).emitted record.u record.v record.poz)) := by
  refine ⟨rfl, ?_⟩
  intro depth
  constructor
  · intro hnone
    simp only [rayColor]
    rw [hnone]
  · intro record hrec
    refine ⟨?_, ?_, ?_⟩
    · obtain ⟨h, hh, heq⟩ := List.mem_filterMap.mp (minByT_mem _ _ hrec)
      exact ⟨h, hh, heq⟩
    · intro h hh r hr
      exact minByT_min _ _ hrec r (List.mem_filterMap.mpr ⟨h, hh, hr⟩)
    · simp only [rayColor]
      rw [hrec]
      simp only []
      cases hscatter : (M record.material).scatter ray record with
      | none => rfl
      | some pair =>
        rcases pair with ⟨scattered, attenuation⟩
        simp only []
        exact Vector3.add_comm' _ _

/-- Witness for C1: a one-element scene whose object reports a fixed hit with
a non-scattering, light-emitting material; `ray_color` at depth 1 returns
exactly the emitted color. -/
theorem rayColor_spec_witness :
    minByT (([fun _ _ => some ⟨1, ⟨0, 0, 0⟩, ⟨1, 0, 0⟩, true, 0, 0, 0⟩] :
          List (Ray → EReal × EReal → Option HitRecord)).filterMap
        fun h => h (⟨⟨0, 0, 0⟩, ⟨0, 0, 1⟩, 1⟩ : Ray) (((0.001 : ℝ) : EReal), ⊤)) =
      some ⟨1, ⟨0, 0, 0⟩, ⟨1, 0, 0⟩, true, 0, 0, 0⟩ ∧
    rayColor (fun _ => ⟨fun _ _ => none, fun _ _ _ => ⟨5, 6, 7⟩⟩) (fun _ => ⟨9, 9, 9⟩)
        [fun _ _ => some ⟨1, ⟨0, 0, 0⟩, ⟨1, 0, 0⟩, true, 0, 0, 0⟩]
        ⟨⟨0, 0, 0⟩, ⟨0, 0, 1⟩, 1⟩ 1 = (⟨5, 6, 7⟩ : Vector3) := by
  have hrec : minByT (([fun _ _ => some ⟨1, ⟨0, 0, 0⟩, ⟨1, 0, 0⟩, true, 0, 0, 0⟩] :
          List (Ray → EReal × EReal → Option HitRecord)).filterMap
      fun h => h (⟨⟨0, 0, 0⟩, ⟨0, 0, 1⟩, 1⟩ : Ray) (((0.001 : ℝ) : EReal), ⊤)) =
      some ⟨1, ⟨0, 0, 0⟩, ⟨1, 0, 0⟩, true, 0, 0, 0⟩ := rfl
  refine ⟨hrec, ?_⟩
  have hspec := ((rayColor_spec (fun _ => ⟨fun _ _ => none, fun _ _ _ => ⟨5, 6, 7⟩⟩)
      (fun _ => ⟨9, 9, 9⟩) [fun _ _ => some ⟨1, ⟨0, 0, 0⟩, ⟨1, 0, 0⟩, true, 0, 0, 0⟩]
      ⟨⟨0, 0, 0⟩, ⟨0, 0, 1⟩, 1⟩).2 0).2 _ hrec
  exact hspec.2.2

theorem satCast32_eq_self (n : ℤ) (h1 : -(2 ^ 31) ≤ n) (h2 : n ≤ 2 ^ 31 - 1) :
    satCast32 n = n := by
  unfold satCast32
  rw [min_eq_right h2, max_eq_right h1]

/-- C5 (amended) -- floor-based cell parity decides the checker sub-texture
whenever each scaled, floored coordinate fits into `i32` (outside that range
the `as i32` cast saturates, see the counterexample); in particular with
scale 1 the points (0,0,0) and (1,0,0) select different sub-textures, and
(-1/2,0,0) uses floor-based (not truncation-based) parity: its floor is -1,
odd, so the odd sub-texture is selected. -/
theorem checker_value_parity :
    (∀ (scale : ℝ) (evenT oddT : ℝ → ℝ → Vector3 → Vector3) (u v : ℝ) (p : Vector3),
      -(2 ^ 31) ≤ ⌊scale * p.x⌋ → ⌊scale * p.x⌋ ≤ 2 ^ 31 - 1 →
      -(2 ^ 31) ≤ ⌊scale * p.y⌋ → ⌊scale * p.y⌋ ≤ 2 ^ 31 - 1 →
      -(2 ^ 31) ≤ ⌊scale * p.z⌋ → ⌊scale * p.z⌋ ≤ 2 ^ 31 - 1 →
      CheckerTexture.value scale evenT oddT u v p =
        (if (⌊scale * p.x⌋ + ⌊scale * p.y⌋ + ⌊scale * p.z⌋) % 2 = 0 then evenT u v p
         else oddT u v p)) ∧
    CheckerTexture.value 1 (fun _ _ _ => ⟨1, 1, 1⟩) (fun _ _ _ => ⟨0, 0, 0⟩) 0 0 ⟨0, 0, 0⟩ =
      (⟨1, 1, 1⟩ : Vector3) ∧
    CheckerTexture.value 1 (fun _ _ _ => ⟨1, 1, 1⟩) (fun _ _ _ => ⟨0, 0, 0⟩) 0 0 ⟨1, 0, 0⟩ =
      (⟨0, 0, 0⟩ : Vector3) ∧
    CheckerTexture.value 1 (fun _ _ _ => ⟨1, 1, 1⟩) (fun _ _ _ => ⟨0, 0, 0⟩) 0 0
      ⟨-(1 / 2), 0, 0⟩ = (⟨0, 0, 0⟩ : Vector3) := by
  have hfloor0 : ⌊(1 : ℝ) * 0⌋ = 0 := by norm_num
  have hmain : ∀ (scale : ℝ) (evenT oddT : ℝ → ℝ → Vector3 → Vector3) (u v : ℝ) (p : Vector3),
      -(2 ^ 31) ≤ ⌊scale * p.x⌋ → ⌊scale * p.x⌋ ≤ 2 ^ 31 - 1 →
      -(2 ^ 31) ≤ ⌊scale * p.y⌋ → ⌊scale * p.y⌋ ≤ 2 ^ 31 - 1 →
      -(2 ^ 31) ≤ ⌊scale * p.z⌋ → ⌊scale * p.z⌋ ≤ 2 ^ 31 - 1 →
      CheckerTexture.value scale evenT oddT u v p =
        (if (⌊scale * p.x⌋ + ⌊scale * p.y⌋ + ⌊scale * p.z⌋) % 2 = 0 then evenT u v p
         else oddT u v p) := by
    intro scale evenT oddT u v p hx1 hx2 hy1 hy2 hz1 hz2
    unfold CheckerTexture.value
    rw [satCast32_eq_self _ hx1 hx2, satCast32_eq_self _ hy1 hy2, satCast32_eq_self _ hz1 hz2]
  refine ⟨hmain, ?_, ?_, ?_⟩
  · rw [hmain 1 _ _ 0 0 ⟨0, 0, 0⟩ (by norm_num) (by norm_num) (by norm_num) (by norm_num)
      (by norm_num) (by norm_num)]
    norm_num
  · have hfloor1 : ⌊(1 : ℝ) * 1⌋ = 1 := by norm_num
    rw [hmain 1 _ _ 0 0 ⟨1, 0, 0⟩ (by norm_num) (by norm_num) (by norm_num) (by norm_num)
      (by norm_num) (by norm_num)]
    rw [if_neg]
    simp only [hfloor1, hfloor0]
    norm_num
  · have hfloorm : ⌊(1 : ℝ) * -(1 / 2)⌋ = -1 := by
      rw [show (1 : ℝ) * -(1 / 2) = -(1 / 2) by norm_num]
      apply Int.floor_eq_iff.mpr
      constructor <;> norm_num
    rw [hmain 1 _ _ 0 0 ⟨-(1 / 2), 0, 0⟩ (by rw [hfloorm]; norm_num) (by rw [hfloorm]; norm_num)
      (by norm_num) (by norm_num) (by norm_num) (by norm_num)]
    rw [if_neg]
    simp only [hfloorm, hfloor0]
    norm_num

/-- Witness for C5 (amended): at the origin all floors are 0, within `i32`
range, and the even sub-texture is selected. -/
theorem checker_value_parity_witness :
    CheckerTexture.value 1 (fun _ _ _ => ⟨1, 1, 1⟩) (fun _ _ _ => ⟨0, 0, 0⟩) 0 0 ⟨0, 0, 0⟩ =
      (if (⌊(1 : ℝ) * (⟨0, 0, 0⟩ : Vector3).x⌋ + ⌊(1 : ℝ) * (⟨0, 0, 0⟩ : Vector3).y⌋ +
          ⌊(1 : ℝ) * (⟨0, 0, 0⟩ : Vector3).z⌋) % 2 = 0
        then (⟨1, 1, 1⟩ : Vector3) else (⟨0, 0, 0⟩ : Vector3)) := by
  exact checker_value_parity.1 1 (fun _ _ _ => ⟨1, 1, 1⟩) (fun _ _ _ => ⟨0, 0, 0⟩) 0 0 ⟨0, 0, 0⟩
    (by norm_num) (by norm_num) (by norm_num) (by norm_num) (by norm_num) (by norm_num)

/-- C5 counterexample -- at p = (2³¹, 0, 0) with scale 1, the floor sum 2³¹ is
even, yet the code's saturating `as i32` cast turns it into 2³¹-1 (odd), so the
odd sub-texture is selected: "even sub-texture exactly when the floor sum is
even" fails at this point. -/
theorem checker_value_saturation_counterexample :
    CheckerTexture.value 1 (fun _ _ _ => ⟨1, 1, 1⟩) (fun _ _ _ => ⟨0, 0, 0⟩) 0 0
      ⟨2147483648, 0, 0⟩ = (⟨0, 0, 0⟩ : Vector3) ∧
    (⌊(1 : ℝ) * (2147483648 : ℝ)⌋ + ⌊(1 : ℝ) * (0 : ℝ)⌋ + ⌊(1 : ℝ) * (0 : ℝ)⌋) % 2 = 0 ∧
    (⟨1, 1, 1⟩ : Vector3) ≠ (⟨0, 0, 0⟩ : Vector3) := by
  have hbig : ⌊(1 : ℝ) * (2147483648 : ℝ)⌋ = 2147483648 := by
    rw [show (1 : ℝ) * (2147483648 : ℝ) = ((2147483648 : ℤ) : ℝ) by norm_num]
    exact Int.floor_intCast _
  have h0 : ⌊(1 : ℝ) * (0 : ℝ)⌋ = 0 := by norm_num
  refine ⟨?_, ?_, ?_⟩
  · unfold CheckerTexture.value
    rw [hbig, h0]
    rw [show satCast32 2147483648 = 2147483647 by
      unfold satCast32
      rw [min_eq_left (by norm_num), max_eq_right (by norm_num)]
      norm_num]
    rw [show satCast32 0 = 0 by
      unfold satCast32
      rw [min_eq_right (by norm_num), max_eq_right (by norm_num)]]
    norm_num
  · rw [hbig, h0]
    norm_num
  · intro h
    have := congrArg Vector3.x h
    norm_num at this

/-- C6 (amended) -- a missing image resource (`find_file` returns `None`)
does not abort construction: the texture stores the empty image and every
`value` call on it returns the diagnostic cyan (0,1,1); but a resource that is
found and fails to open or decode panics via `.expect`, aborting the render. -/
theorem imageTexture_missing_resource_cyan :
    ImageTexture.new none = some ImageData.empty ∧
    (∀ (u v : ℝ) (p : Vector3), ImageTexture.value ImageData.empty u v p =
      some ⟨0, 1, 1⟩) ∧
    ImageTexture.new (some none) = none := by
  refine ⟨rfl, ?_, rfl⟩
  intro u v p
  unfold ImageTexture.value
  rw [if_pos (show ImageData.empty.height = 0 from rfl)]

/-- C6 counterexample -- an image resource that is found but cannot be decoded
makes `ImageTexture::new` panic (`.expect("Failed to decode image")`) instead
of degrading to a diagnostic color: construction aborts the render. -/
theorem imageTexture_decode_failure_aborts :
    ImageTexture.new (some none) = none := rfl

/-- C9 -- at the boundary texture coordinate u = 1.0 on a successfully loaded
4×4 image, `ImageTexture::value` computes the column index
`(u * width) as u32 = 4`, equal to the width, and `get_pixel(4, _)` is out of
bounds: the call panics instead of returning a color. -/
theorem imageTexture_value_u1_out_of_bounds :
    ImageTexture.value ⟨4, 4, fun _ _ => (0, 0, 0)⟩ 1 (1 / 2) ⟨0, 0, 0⟩ = none := by
  unfold ImageTexture.value rustCastU32
  norm_num

/-- C10 -- with image_width = 2 and aspect_ratio = 1 the camera renders a 2×2
image; total_pixels = 4, the progress divisor `total_pixels / 10` is 0, and the
modulo in `Camera::render` panics for every pixel. -/
theorem camera_progress_2x2_panics :
    Camera.imageHeight 2 1 = 2 ∧
    (∀ current : ℕ, Camera.progressStep current (2 * 2) = none) := by
  constructor
  · unfold Camera.imageHeight rustCastU32
    norm_num
    rfl
  · intro current
    unfold Camera.progressStep
    norm_num

end RayTracer
